import Mathlib

/-!
# Verification of the jsonToXml converter

Shallow embedding of `main.go` of the jsonToXml repository: the record type
`jsonData`, the JSON decoding performed by `encoding/json.Unmarshal` for that
record type, the XML serialisation performed by `encoding/xml.MarshalIndent`
with prefix `" "` and indent `" "`, the converter `jsonToXml`, the worker
`fetchAndProcess`, and the dispatcher loop of `run`.

Byte strings of the Go program are modelled as Lean `String`s (lists of
unicode scalar values); fallible operations return `Option`/`Except`.
-/

namespace JsonToXml

/-- The record type `jsonData` from main.go: the one JSON shape the tool
understands.  Field `Id` has Go type `int` (modelled as `Int`); the four
string fields follow, `FirstName`/`LastName` carrying the json tags
`first_name`/`last_name` and the xml tags `name>first`/`name>last`. -/
structure jsonData where
  Id : Int
  FirstName : String
  LastName : String
  City : String
  State : String
deriving Repr, DecidableEq

/-- `IsEmpty` from main.go: true iff every attribute of `jsonData` is zero
valued (`p.Id == 0` and all four strings have length 0). -/
def jsonData.IsEmpty (p : jsonData) : Bool :=
  p.Id == 0 && p.FirstName.length == 0 && p.LastName.length == 0 &&
    p.City.length == 0 && p.State.length == 0

/-- The zero value of `jsonData`, as produced by `var p jsonData` in Go. -/
def jsonData.zero : jsonData := ⟨0, "", "", "", ""⟩

/-! ## Decimal rendering of integers (Go `%d` / json / xml number output) -/

/-- Decimal digit character for `n < 10`. -/
def digitChar (n : Nat) : Char := Char.ofNat (48 + n)

/-- Fuel-indexed digit expansion; the fuel only has to exceed the number of
digits, and `natToDigits` supplies plenty. -/
def natToDigitsAux : Nat → Nat → List Char
  | 0, _ => []
  | fuel + 1, n =>
    if n < 10 then [digitChar n]
    else natToDigitsAux fuel (n / 10) ++ [digitChar (n % 10)]

/-- Decimal digits of a natural number, most significant first
(`strconv.Itoa` for naturals). -/
def natToDigits (n : Nat) : List Char := natToDigitsAux (n + 1) n

theorem natToDigitsAux_congr :
    ∀ f1 : Nat, ∀ n, n < f1 → ∀ f2, n < f2 → natToDigitsAux f1 n = natToDigitsAux f2 n := by
  intro f1
  induction f1 with
  | zero => intro n h; omega
  | succ a ih =>
    intro n _ f2 h2
    cases f2 with
    | zero => omega
    | succ b =>
      simp only [natToDigitsAux]
      by_cases h : n < 10
      · simp [h]
      · rw [if_neg h, if_neg h]
        have hd : n / 10 < n := Nat.div_lt_self (by omega) (by omega)
        rw [ih (n / 10) (by omega) b (by omega)]

/-- The recurrence `natToDigits` satisfies. -/
theorem natToDigits_unfold (n : Nat) :
    natToDigits n = if n < 10 then [digitChar n]
      else natToDigits (n / 10) ++ [digitChar (n % 10)] := by
  show natToDigitsAux (n + 1) n = _
  simp only [natToDigitsAux]
  by_cases h : n < 10
  · simp [h]
  · rw [if_neg h, if_neg h]
    have hd : n / 10 < n := Nat.div_lt_self (by omega) (by omega)
    rw [natToDigitsAux_congr n (n / 10) (by omega) (n / 10 + 1) (by omega)]
    rfl

/-- Decimal rendering of a Go `int` as a character list. -/
def intToDigits (n : Int) : List Char :=
  if n < 0 then '-' :: natToDigits n.natAbs else natToDigits n.natAbs

/-- Decimal rendering of a Go `int` as a string. -/
def intRepr (n : Int) : String := String.mk (intToDigits n)

/-- Numeric value of a list of decimal digit characters. -/
def digitsToNat (ds : List Char) : Nat :=
  ds.foldl (fun a c => a * 10 + (c.toNat - 48)) 0

/-! ## JSON values and the `encoding/json` parser

`Json` models the values `encoding/json` can decode.  A number literal is
recorded as `num (some n)` when it is an integer literal (decodable into the
Go `int` field `Id`) and `num none` when it carries a fraction or exponent
(which `Unmarshal` rejects for an `int` target). -/

inductive Json where
  | null
  | bool (b : Bool)
  | num (intVal : Option Int)
  | str (s : String)
  | arr (elems : List Json)
  | obj (members : List (String × Json))

/-- JSON whitespace accepted by `encoding/json`. -/
def isJsonWs (c : Char) : Bool :=
  c = ' ' || c = '\t' || c = '\n' || c = '\r'

/-- Drop leading JSON whitespace. -/
def skipWs : List Char → List Char
  | [] => []
  | c :: rest => if isJsonWs c then skipWs rest else c :: rest

/-- Value of a hexadecimal digit character. -/
def hexVal (c : Char) : Option Nat :=
  if '0' ≤ c ∧ c ≤ '9' then some (c.toNat - 48)
  else if 'a' ≤ c ∧ c ≤ 'f' then some (c.toNat - 87)
  else if 'A' ≤ c ∧ c ≤ 'F' then some (c.toNat - 55)
  else none

/-- Value of a four-hex-digit escape `\uXXXX`. -/
def hex4 (a b c d : Char) : Option Nat :=
  match hexVal a, hexVal b, hexVal c, hexVal d with
  | some va, some vb, some vc, some vd => some (va * 4096 + vb * 256 + vc * 16 + vd)
  | _, _, _, _ => none

/-- The replacement character U+FFFD used by Go for unpaired surrogates. -/
def repChar : Char := Char.ofNat 0xFFFD

/-- Single-character JSON escapes `\" \\ \/ \b \f \n \r \t`. -/
def unescapeSimple (e : Char) : Option Char :=
  if e = '"' then some '"'
  else if e = '\\' then some '\\'
  else if e = '/' then some '/'
  else if e = 'b' then some (Char.ofNat 8)
  else if e = 'f' then some (Char.ofNat 12)
  else if e = 'n' then some '\n'
  else if e = 'r' then some '\r'
  else if e = 't' then some '\t'
  else none

mutual

/-- Parse the body of a JSON string literal (after the opening quote),
returning the decoded characters and the input remaining after the closing
quote.  Mirrors `encoding/json`: raw control characters are rejected and
`\uXXXX` escapes are decoded.  Simplification against Go: escapes whose
value lies in the surrogate range are decoded to U+FFFD individually (Go
additionally merges an adjacent high/low pair into one code point); both
accept exactly the same inputs, and the record produced from them is
non-empty in both. -/
def parseStringBody : List Char → Option (List Char × List Char)
  | [] => none
  | c :: rest =>
    if c = '"' then some ([], rest)
    else if c = '\\' then parseEscapeSeq rest
    else if c.toNat < 0x20 then none
    else (parseStringBody rest).map fun p => (c :: p.1, p.2)

/-- Decode one backslash escape (the part after `\`) and continue. -/
def parseEscapeSeq : List Char → Option (List Char × List Char)
  | 'u' :: a :: b :: c1 :: d :: rest2 =>
    match hex4 a b c1 d with
    | none => none
    | some n =>
      if 0xD800 ≤ n ∧ n < 0xE000 then
        (parseStringBody rest2).map fun p => (repChar :: p.1, p.2)
      else
        (parseStringBody rest2).map fun p => (Char.ofNat n :: p.1, p.2)
  | e :: rest2 =>
    match unescapeSimple e with
    | some ch => (parseStringBody rest2).map fun p => (ch :: p.1, p.2)
    | none => none
  | [] => none

end

/-- Optional sign of a JSON exponent. -/
def dropExpSign : List Char → List Char
  | [] => []
  | s :: t => if s = '+' ∨ s = '-' then t else s :: t

/-- Optional fraction part `.digits` of a JSON number; returns whether a
fraction was present. -/
def parseFracOpt : List Char → Option (Bool × List Char)
  | [] => some (false, [])
  | c :: rest =>
    if c = '.' then
      if rest.takeWhile Char.isDigit = ([] : List Char) then none
      else some (true, rest.dropWhile Char.isDigit)
    else some (false, c :: rest)

/-- Optional exponent part `[eE][+-]?digits` of a JSON number. -/
def parseExpOpt : List Char → Option (Bool × List Char)
  | [] => some (false, [])
  | c :: rest =>
    if c = 'e' ∨ c = 'E' then
      let t := dropExpSign rest
      if t.takeWhile Char.isDigit = ([] : List Char) then none
      else some (true, t.dropWhile Char.isDigit)
    else some (false, c :: rest)

/-- Parse a JSON number once the sign has been split off. -/
def parseNumAfterSign (neg : Bool) (cs : List Char) : Option (Json × List Char) :=
  let ds := cs.takeWhile Char.isDigit
  let rest := cs.dropWhile Char.isDigit
  if ds = ([] : List Char) then none
  else if 1 < ds.length ∧ ds.head? = some '0' then none
  else
    match parseFracOpt rest with
    | none => none
    | some (f1, r2) =>
      match parseExpOpt r2 with
      | none => none
      | some (f2, r3) =>
        some (.num (if f1 ∨ f2 then none
          else some (if neg then -(digitsToNat ds : Int) else (digitsToNat ds : Int))), r3)

/-- Parse a JSON number literal (grammar of RFC 8259 as accepted by
`encoding/json`, including the leading-zero restriction). -/
def parseNumber (cs : List Char) : Option (Json × List Char) :=
  match cs with
  | [] => none
  | c :: rest =>
    if c = '-' then parseNumAfterSign true rest
    else parseNumAfterSign false (c :: rest)

/-- Match an exact literal; returns the remaining input on success. -/
def dropLit : List Char → List Char → Option (List Char)
  | [], cs => some cs
  | p :: ps, c :: cs => if c = p then dropLit ps cs else none
  | _ :: _, [] => none

mutual

/-- Parse one JSON value (fuel-indexed recursive descent; the fuel bounds
the recursion depth through objects and arrays). -/
def parseValue : Nat → List Char → Option (Json × List Char)
  | 0, _ => none
  | fuel + 1, cs =>
    match skipWs cs with
    | [] => none
    | c :: rest =>
      if c = '{' then
        match skipWs rest with
        | '}' :: r2 => some (.obj [], r2)
        | r2 => (parseMembers fuel r2).map fun p => (.obj p.1, p.2)
      else if c = '[' then
        match skipWs rest with
        | ']' :: r2 => some (.arr [], r2)
        | r2 => (parseElements fuel r2).map fun p => (.arr p.1, p.2)
      else if c = '"' then
        (parseStringBody rest).map fun p => (.str (String.mk p.1), p.2)
      else if c = 'n' then (dropLit ['u', 'l', 'l'] rest).map fun r => (.null, r)
      else if c = 't' then (dropLit ['r', 'u', 'e'] rest).map fun r => (.bool true, r)
      else if c = 'f' then (dropLit ['a', 'l', 's', 'e'] rest).map fun r => (.bool false, r)
      else parseNumber (c :: rest)

/-- Parse the members of a JSON object (at least one; the empty object is
handled in `parseValue`). -/
def parseMembers : Nat → List Char → Option (List (String × Json) × List Char)
  | 0, _ => none
  | fuel + 1, cs =>
    match cs with
    | '"' :: rest =>
      match parseStringBody rest with
      | none => none
      | some (key, r1) =>
        match skipWs r1 with
        | ':' :: r2 =>
          match parseValue fuel r2 with
          | none => none
          | some (v, r3) =>
            match skipWs r3 with
            | ',' :: r4 =>
              match parseMembers fuel (skipWs r4) with
              | none => none
              | some (kvs, r5) => some ((String.mk key, v) :: kvs, r5)
            | '}' :: r4 => some ([(String.mk key, v)], r4)
            | _ => none
        | _ => none
    | _ => none

/-- Parse the elements of a JSON array (at least one; the empty array is
handled in `parseValue`). -/
def parseElements : Nat → List Char → Option (List Json × List Char)
  | 0, _ => none
  | fuel + 1, cs =>
    match parseValue fuel cs with
    | none => none
    | some (v, r1) =>
      match skipWs r1 with
      | ',' :: r2 =>
        match parseElements fuel (skipWs r2) with
        | none => none
        | some (vs, r3) => some (v :: vs, r3)
      | ']' :: r2 => some ([v], r2)
      | _ => none

end

/-- Parse a complete JSON document as `json.Unmarshal` does: one value,
possibly surrounded by whitespace, with nothing after it.  `none` models a
`*json.SyntaxError`. -/
def parseJson (s : String) : Option Json :=
  match parseValue (s.data.length + 1) s.data with
  | none => none
  | some (v, rest) => if skipWs rest = ([] : List Char) then some v else none

/-! ## Errors

`GoError` models the error values observable from `main.go`:
`ErrUnknownJSON` (the sentinel `errors.New` value), the two kinds of
`json.Unmarshal` failures, the `errors.Errorf` content-type error carrying
the observed header, transport errors from `client.Get`, and
`errors.Wrap ctx e` from github.com/pkg/errors. -/

inductive GoError where
  | unknownJSON
  | jsonSyntaxErr
  | jsonTypeErr (field : String)
  | contentTypeErr (observed : String)
  | transportErr (msg : String)
  | wrap (ctx : String) (inner : GoError)
deriving Repr, DecidableEq

deriving instance DecidableEq for Except

/-! ## `json.Unmarshal` into `jsonData` -/

/-- ASCII lower-casing, the case folding `encoding/json` uses when matching
object keys against struct field names. -/
def asciiLower (s : String) : String :=
  String.mk (s.data.map fun c => if 'A' ≤ c ∧ c ≤ 'Z' then Char.ofNat (c.toNat + 32) else c)

/-- The five fields of `jsonData` a JSON object key can address. -/
inductive RecField where
  | fId | fFirstName | fLastName | fCity | fState
deriving Repr, DecidableEq

/-- Key-to-field matching of `encoding/json` for `jsonData`: the effective
names are the json tags `first_name`/`last_name` and the field names `Id`,
`City`, `State`; matching is case-insensitive (ASCII fold).  The five
effective names are pairwise distinct under folding, so Go's
exact-match-first rule coincides with folding directly. -/
def fieldFor (key : String) : Option RecField :=
  let k := asciiLower key
  if k = "id" then some .fId
  else if k = "first_name" then some .fFirstName
  else if k = "last_name" then some .fLastName
  else if k = "city" then some .fCity
  else if k = "state" then some .fState
  else none

/-- Store one decoded JSON value into a field of the record, as
`encoding/json` does: `null` leaves the field untouched, a value of the
wrong shape is an `UnmarshalTypeError`, a number with fraction or exponent
cannot decode into the `int` field `Id`. -/
def setField (p : jsonData) (f : RecField) (v : Json) : Except GoError jsonData :=
  match f, v with
  | _, .null => .ok p
  | .fId, .num (some n) => .ok { p with Id := n }
  | .fId, _ => .error (.jsonTypeErr "Id")
  | .fFirstName, .str s => .ok { p with FirstName := s }
  | .fFirstName, _ => .error (.jsonTypeErr "FirstName")
  | .fLastName, .str s => .ok { p with LastName := s }
  | .fLastName, _ => .error (.jsonTypeErr "LastName")
  | .fCity, .str s => .ok { p with City := s }
  | .fCity, _ => .error (.jsonTypeErr "City")
  | .fState, .str s => .ok { p with State := s }
  | .fState, _ => .error (.jsonTypeErr "State")

/-- Fold the members of a JSON object into the record; unknown keys are
ignored, later duplicates overwrite earlier ones. -/
def assignFields (p : jsonData) : List (String × Json) → Except GoError jsonData
  | [] => .ok p
  | (k, v) :: rest =>
    match fieldFor k with
    | none => assignFields p rest
    | some f =>
      match setField p f v with
      | .error e => .error e
      | .ok p2 => assignFields p2 rest

/-- Decode a parsed JSON value into `jsonData` as `encoding/json` does for a
struct target: an object assigns fields, `null` is a no-op leaving the zero
value, any other value is an `UnmarshalTypeError`. -/
def unmarshalRecord : Json → Except GoError jsonData
  | .obj kvs => assignFields jsonData.zero kvs
  | .null => .ok jsonData.zero
  | .bool _ => .error (.jsonTypeErr "jsonData")
  | .num _ => .error (.jsonTypeErr "jsonData")
  | .str _ => .error (.jsonTypeErr "jsonData")
  | .arr _ => .error (.jsonTypeErr "jsonData")

/-- `json.Unmarshal(data, &p)` for `p : jsonData`: parse the bytes, then
decode into the record. -/
def goUnmarshal (data : String) : Except GoError jsonData :=
  match parseJson data with
  | none => .error .jsonSyntaxErr
  | some v => unmarshalRecord v

/-! ## `xml.MarshalIndent` for `jsonData`

`xml.MarshalIndent(p, " ", " ")` emits the fixed element structure given by
the struct (root `<jsonData>`, children `Id`, the nested `name` block from
the `name>first`/`name>last` tags, `City`, `State`) with character data
escaped by `xml.EscapeText`. -/

/-- A character `xml.EscapeText` emits literally (everything outside the XML
character range is replaced by U+FFFD). -/
def validXmlChar (c : Char) : Bool :=
  c = '\t' || c = '\n' || c = '\r' ||
    (0x20 ≤ c.toNat && c.toNat ≤ 0xD7FF) ||
    (0xE000 ≤ c.toNat && c.toNat ≤ 0xFFFD) ||
    (0x10000 ≤ c.toNat && c.toNat ≤ 0x10FFFF)

/-- `xml.EscapeText` on one character. -/
def xmlEscapeChar (c : Char) : List Char :=
  if c = '"' then "&#34;".data
  else if c = '\'' then "&#39;".data
  else if c = '&' then "&amp;".data
  else if c = '<' then "&lt;".data
  else if c = '>' then "&gt;".data
  else if c = '\t' then "&#x9;".data
  else if c = '\n' then "&#xA;".data
  else if c = '\r' then "&#xD;".data
  else if validXmlChar c then [c]
  else [repChar]

/-- `xml.EscapeText` on a character list. -/
def xmlEscapeList (cs : List Char) : List Char := cs.flatMap xmlEscapeChar

/-- `xml.EscapeText` on a string. -/
def xmlEscape (s : String) : String := String.mk (xmlEscapeList s.data)

/-- All string fields of a record consist of XML-representable characters,
so serialising them is lossless. -/
def xmlCleanRecord (p : jsonData) : Bool :=
  p.FirstName.data.all validXmlChar && p.LastName.data.all validXmlChar &&
    p.City.data.all validXmlChar && p.State.data.all validXmlChar

/-- Fixed fragments of the `xml.MarshalIndent` output for `jsonData` with
prefix `" "` and indent `" "`.  All fragments after the first start with the
`'<'` that terminates the preceding character data. -/
def xmlFrag1 : List Char := " <jsonData>\n  <Id>".data

/-- Fragment between the `Id` content and the `first` content. -/
def xmlFrag2 : List Char := '<' :: "/Id>\n  <name>\n   <first>".data

/-- Fragment between the `first` content and the `last` content. -/
def xmlFrag3 : List Char := '<' :: "/first>\n   <last>".data

/-- Fragment between the `last` content and the `City` content. -/
def xmlFrag4 : List Char := '<' :: "/last>\n  </name>\n  <City>".data

/-- Fragment between the `City` content and the `State` content. -/
def xmlFrag5 : List Char := '<' :: "/City>\n  <State>".data

/-- Closing fragment after the `State` content. -/
def xmlFrag6 : List Char := '<' :: "/State>\n </jsonData>".data

/-- The characters of `xml.MarshalIndent(p, " ", " ")`. -/
def marshalChars (p : jsonData) : List Char :=
  xmlFrag1 ++ (intToDigits p.Id ++ (xmlFrag2 ++ (xmlEscapeList p.FirstName.data ++
    (xmlFrag3 ++ (xmlEscapeList p.LastName.data ++ (xmlFrag4 ++
      (xmlEscapeList p.City.data ++ (xmlFrag5 ++
        (xmlEscapeList p.State.data ++ xmlFrag6)))))))))

/-- `xml.MarshalIndent(p, " ", " ")` as a string. -/
def marshalRecord (p : jsonData) : String := String.mk (marshalChars p)

/-! ## The converter `jsonToXml` and the worker `fetchAndProcess` -/

/-- `jsonToXml(data, w)` from main.go.  Returns the error result together
with the list of `Write` calls issued to the writer (the writer itself — a
file or an in-memory buffer — accepts the bytes, and `errors.Wrap(nil,
"write")` is `nil`).  On a parse failure the underlying error is wrapped
with context `"json.Unmarshal"`; an empty record yields the sentinel
`ErrUnknownJSON`; otherwise the marshalled XML is written in one call. -/
def jsonToXml (data : String) : Option GoError × List String :=
  match goUnmarshal data with
  | .error e => (some (.wrap "json.Unmarshal" e), [])
  | .ok p =>
    if p.IsEmpty then (some .unknownJSON, [])
    else (none, [marshalRecord p])

/-- An HTTP response as `fetchAndProcess` observes it: the resolved
`Content-Type` header (`resp.Header.Get` yields `""` when absent) and the
result of reading the body (`ioutil.ReadAll`). -/
structure MockResponse where
  contentType : String
  body : Except String String

/-- A `Getter` capability: `client.Get(url)` returns a response or a
transport error. -/
def Getter := String → Except String MockResponse

/-- Observable outcome of one `fetchAndProcess` call: the returned error,
the `Write` calls issued to the worker's writer, whether the response body
was read, and whether the converter `jsonToXml` was invoked. -/
structure FPResult where
  err : Option GoError
  writes : List String
  bodyRead : Bool
  convertCalled : Bool
deriving Repr, DecidableEq

/-- `(*worker).fetchAndProcess(url)` from main.go: GET the url (errors
wrapped with `"get failed"`); reject a `Content-Type` other than exactly
`"application/json"` with an error carrying the observed value, before the
body is read; a body read error returns `nil` without writing; otherwise
convert the body. -/
def fetchAndProcess (get : Getter) (url : String) : FPResult :=
  match get url with
  | .error e => ⟨some (.wrap "get failed" (.transportErr e)), [], false, false⟩
  | .ok resp =>
    if resp.contentType ≠ "application/json" then
      ⟨some (.contentTypeErr resp.contentType), [], false, false⟩
    else
      match resp.body with
      | .error _ => ⟨none, [], true, false⟩
      | .ok body =>
        let r := jsonToXml body
        ⟨r.1, r.2, true, true⟩

/-! ## The dispatcher `run` -/

/-- Unicode white space trimmed by `strings.TrimSpace` (ASCII portion; the
URLs of the tool are ASCII). -/
def isGoSpace (c : Char) : Bool :=
  c = ' ' || c = '\t' || c = '\n' || c = Char.ofNat 11 || c = Char.ofNat 12 || c = '\r'

/-- `strings.TrimSpace`. -/
def goTrimSpace (s : String) : String :=
  String.mk ((s.data.dropWhile isGoSpace).reverse.dropWhile isGoSpace |>.reverse)

/-- Output path for the URL at index `i`:
`filepath.Join(output, fmt.Sprintf("%d.xml", i))`.  (`filepath.Join` is
modelled as concatenation with the `/` separator; `run` joins a directory
name with a relative file name.) -/
def pathFor (output : String) (i : Nat) : String :=
  output ++ "/" ++ String.mk (natToDigits i) ++ ".xml"

/-- The per-URL binding the `run` loop creates before launching any
goroutine: the trimmed URL paired with its output path, at the URL's index
in the comma-split list. -/
def runBindings (output : String) (urlList : List String) : List (String × String) :=
  urlList.enum.map fun iu => (goTrimSpace iu.2, pathFor output iu.1)

/-- The closure passed to `eg.Go` for one URL: it runs `fetchAndProcess`
and returns `nil` to the errgroup in both the failure branch (after
logging) and the success branch. -/
def workerTask (get : Getter) (u : String) : Option GoError :=
  match (fetchAndProcess get u).err with
  | some _ => none
  | none => none

/-- `errgroup.Wait`: the first non-nil error returned by any task, `none`
if every task returned `nil`. -/
def egWait (results : List (Option GoError)) : Option GoError :=
  results.foldl (fun acc r => match acc with | some e => some e | none => r) none

/-- The observable outcome of `run` over a URL list: the error surfaced by
`eg.Wait()` (fatal if non-nil) and, per URL index, the output path with the
bytes its worker wrote there. -/
def runModel (get : Getter) (output : String) (urlList : List String) :
    Option GoError × List (String × List String) :=
  let bindings := runBindings output urlList
  (egWait (bindings.map fun b => workerTask get b.1),
    bindings.map fun b => (b.2, (fetchAndProcess get b.1).writes))

/-- The files present after a run in which the workers finished in the
order given by `order` (a permutation of the indices): each worker writes
only to its own pre-assigned path, so completion order merely permutes the
(path, content) pairs. -/
def filesInOrder (get : Getter) (output : String) (urlList : List String)
    (order : List Nat) : List (String × List String) :=
  order.filterMap fun i =>
    ((runBindings output urlList).get? i).map fun b =>
      (b.2, (fetchAndProcess get b.1).writes)

/-! ## `json.Marshal` of a record (the round-trip's `jsonEncode`) -/

/-- Lower-case hexadecimal digit, as in `encoding/json`'s `hex` table. -/
def jsonHexDig (n : Nat) : Char :=
  if n < 10 then Char.ofNat (48 + n) else Char.ofNat (87 + n)

/-- `encoding/json` string escaping (with the default HTML escaping): `"`
and `\` get a backslash escape, `<`, `>`, `&` become `<`/`>`/
`&`, newline/carriage-return/tab become `\n`/`\r`/`\t`, the remaining
control characters become `\u00XX`, and U+2028/U+2029 are escaped. -/
def jsonEscapeChar (c : Char) : List Char :=
  if c = '"' then ['\\', '"']
  else if c = '\\' then ['\\', '\\']
  else if c = '<' then ['\\', 'u', '0', '0', '3', 'c']
  else if c = '>' then ['\\', 'u', '0', '0', '3', 'e']
  else if c = '&' then ['\\', 'u', '0', '0', '2', '6']
  else if c = '\n' then ['\\', 'n']
  else if c = '\r' then ['\\', 'r']
  else if c = '\t' then ['\\', 't']
  else if c.toNat < 0x20 then
    ['\\', 'u', '0', '0', jsonHexDig (c.toNat / 16), jsonHexDig (c.toNat % 16)]
  else if c.toNat = 0x2028 then ['\\', 'u', '2', '0', '2', '8']
  else if c.toNat = 0x2029 then ['\\', 'u', '2', '0', '2', '9']
  else [c]

/-- `encoding/json` string escaping on a character list. -/
def jsonEscapeList (cs : List Char) : List Char := cs.flatMap jsonEscapeChar

/-- Fixed fragments of `json.Marshal` output for `jsonData`; the keys are
the effective field names `Id`, `first_name`, `last_name`, `City`,
`State`, in struct order. -/
def jFrag1 : List Char := ['{', '"', 'I', 'd', '"', ':']

/-- Fragment between the `Id` value and the `first_name` value. -/
def jFrag2 : List Char :=
  [',', '"', 'f', 'i', 'r', 's', 't', '_', 'n', 'a', 'm', 'e', '"', ':', '"']

/-- Fragment between the `first_name` value and the `last_name` value. -/
def jFrag3 : List Char :=
  ['"', ',', '"', 'l', 'a', 's', 't', '_', 'n', 'a', 'm', 'e', '"', ':', '"']

/-- Fragment between the `last_name` value and the `City` value. -/
def jFrag4 : List Char := ['"', ',', '"', 'C', 'i', 't', 'y', '"', ':', '"']

/-- Fragment between the `City` value and the `State` value. -/
def jFrag5 : List Char := ['"', ',', '"', 'S', 't', 'a', 't', 'e', '"', ':', '"']

/-- Closing fragment after the `State` value. -/
def jFrag6 : List Char := ['"', '}']

/-- The characters of `json.Marshal(p)`. -/
def jsonEncodeChars (p : jsonData) : List Char :=
  jFrag1 ++ (intToDigits p.Id ++ (jFrag2 ++ (jsonEscapeList p.FirstName.data ++
    (jFrag3 ++ (jsonEscapeList p.LastName.data ++ (jFrag4 ++
      (jsonEscapeList p.City.data ++ (jFrag5 ++
        (jsonEscapeList p.State.data ++ jFrag6)))))))))

/-- `json.Marshal(p)` as a string — the round-trip property's
`jsonEncode`. -/
def jsonEncode (p : jsonData) : String := String.mk (jsonEncodeChars p)

/-- The JSON value `json.Marshal(p)` denotes (and `parseJson` recovers). -/
def recordJson (p : jsonData) : Json :=
  .obj [("Id", .num (some p.Id)), ("first_name", .str p.FirstName),
    ("last_name", .str p.LastName), ("City", .str p.City), ("State", .str p.State)]

/-! ## `xmlDecode` -/

mutual

/-- Undo `xml.EscapeText`: decode the character references the serialiser
emits (`&amp; &lt; &gt; &#34; &#39; &#x9; &#xA; &#xD;`); any other use of
`&` is not produced by the serialiser and is rejected. -/
def xmlUnescape : List Char → Option (List Char)
  | [] => some []
  | c :: rest =>
    if c = '&' then xmlEntityDecode rest else (xmlUnescape rest).map (c :: ·)

/-- Decode one character reference (the part after `&`) and continue. -/
def xmlEntityDecode : List Char → Option (List Char)
  | 'a' :: 'm' :: 'p' :: ';' :: r2 => (xmlUnescape r2).map ('&' :: ·)
  | 'l' :: 't' :: ';' :: r2 => (xmlUnescape r2).map ('<' :: ·)
  | 'g' :: 't' :: ';' :: r2 => (xmlUnescape r2).map ('>' :: ·)
  | '#' :: '3' :: '4' :: ';' :: r2 => (xmlUnescape r2).map ('"' :: ·)
  | '#' :: '3' :: '9' :: ';' :: r2 => (xmlUnescape r2).map ('\'' :: ·)
  | '#' :: 'x' :: '9' :: ';' :: r2 => (xmlUnescape r2).map ('\t' :: ·)
  | '#' :: 'x' :: 'A' :: ';' :: r2 => (xmlUnescape r2).map ('\n' :: ·)
  | '#' :: 'x' :: 'D' :: ';' :: r2 => (xmlUnescape r2).map ('\r' :: ·)
  | _ => none

end

/-- Parse the decimal character data of the `Id` element. -/
def parseXmlDigits (ds : List Char) : Option Nat :=
  if ds ≠ ([] : List Char) ∧ ds.all Char.isDigit then some (digitsToNat ds) else none

/-- Parse the character data of the `Id` element as a Go `int`. -/
def parseXmlInt (cs : List Char) : Option Int :=
  match cs with
  | [] => none
  | c :: rest =>
    if c = '-' then (parseXmlDigits rest).map fun m : Nat => -(m : Int)
    else (parseXmlDigits (c :: rest)).map fun m : Nat => (m : Int)

/-- Character data of an element: the characters up to the next `<`. -/
def xmlContent (cs : List Char) : List Char × List Char :=
  (cs.takeWhile (· ≠ '<'), cs.dropWhile (· ≠ '<'))

/-- Modelled from the spec: `xmlDecode` (§8's round-trip decoder, Go
`xml.Unmarshal` into `jsonData`), specialised to the indented document
shape the Converter produces: it accepts the element structure
`/jsonData/{Id, name/{first,last}, City, State}` laid out with the
Converter's indentation and undoes the serialiser's character escaping. -/
def xmlDecode (s : String) : Option jsonData :=
  match dropLit xmlFrag1 s.data with
  | none => none
  | some r1 =>
    let idPart := xmlContent r1
    match parseXmlInt idPart.1 with
    | none => none
    | some n =>
      match dropLit xmlFrag2 idPart.2 with
      | none => none
      | some r2 =>
        let fnPart := xmlContent r2
        match xmlUnescape fnPart.1 with
        | none => none
        | some fn =>
          match dropLit xmlFrag3 fnPart.2 with
          | none => none
          | some r3 =>
            let lnPart := xmlContent r3
            match xmlUnescape lnPart.1 with
            | none => none
            | some ln =>
              match dropLit xmlFrag4 lnPart.2 with
              | none => none
              | some r4 =>
                let cityPart := xmlContent r4
                match xmlUnescape cityPart.1 with
                | none => none
                | some city =>
                  match dropLit xmlFrag5 cityPart.2 with
                  | none => none
                  | some r5 =>
                    let statePart := xmlContent r5
                    match xmlUnescape statePart.1 with
                    | none => none
                    | some st =>
                      match dropLit xmlFrag6 statePart.2 with
                      | some [] =>
                        some ⟨n, String.mk fn, String.mk ln, String.mk city, String.mk st⟩
                      | _ => none

/-! ## Helper lemmas -/

theorem takeWhile_all_append {p : Char → Bool} :
    ∀ (l : List Char) (x : Char) (r : List Char), (∀ c ∈ l, p c = true) → p x = false →
      (l ++ x :: r).takeWhile p = l ∧ (l ++ x :: r).dropWhile p = x :: r := by
  intro l x r hl hx
  induction l with
  | nil => simp [List.takeWhile, List.dropWhile, hx]
  | cons c t ih =>
    have hc : p c = true := hl c (by simp)
    have ht := ih fun d hd => hl d (by simp [hd])
    simp [List.takeWhile, List.dropWhile, hc, ht.1, ht.2]

theorem dropLit_append : ∀ (pat cs : List Char), dropLit pat (pat ++ cs) = some cs := by
  intro pat
  induction pat with
  | nil => intro cs; rfl
  | cons p ps ih => intro cs; simp [dropLit, ih]

theorem dropLit_self (pat : List Char) : dropLit pat pat = some [] := by
  have := dropLit_append pat []
  rwa [List.append_nil] at this

theorem natToDigits_all_digit (n : Nat) : ∀ c ∈ natToDigits n, c.isDigit = true := by
  induction n using Nat.strong_induction_on with
  | _ n ih =>
    rw [natToDigits_unfold]
    by_cases h : n < 10
    · simp only [if_pos h]
      intro c hc
      simp only [List.mem_singleton] at hc
      subst hc
      revert h
      have : ∀ m, m < 10 → (digitChar m).isDigit = true := by decide
      exact this n
    · simp only [if_neg h]
      intro c hc
      rcases List.mem_append.mp hc with h1 | h2
      · exact ih (n / 10) (Nat.div_lt_self (by omega) (by omega)) c h1
      · simp only [List.mem_singleton] at h2
        subst h2
        have : ∀ m, m < 10 → (digitChar m).isDigit = true := by decide
        exact this _ (Nat.mod_lt _ (by omega))

theorem natToDigits_ne_nil (n : Nat) : natToDigits n ≠ [] := by
  rw [natToDigits_unfold]
  by_cases h : n < 10 <;> simp [h]

theorem digitChar_toNat {m : Nat} (h : m < 10) : (digitChar m).toNat = 48 + m := by
  revert h
  have : ∀ m, m < 10 → (digitChar m).toNat = 48 + m := by decide
  exact this m

theorem foldl_digits (n : Nat) :
    ∀ acc, (natToDigits n).foldl (fun a c => a * 10 + (c.toNat - 48)) acc =
      acc * 10 ^ (natToDigits n).length + n := by
  induction n using Nat.strong_induction_on with
  | _ n ih =>
    intro acc
    rw [natToDigits_unfold]
    by_cases h : n < 10
    · simp only [if_pos h, List.foldl_cons, List.foldl_nil, List.length_singleton]
      rw [digitChar_toNat h]
      omega
    · simp only [if_neg h, List.foldl_append, List.foldl_cons, List.foldl_nil,
        List.length_append, List.length_singleton]
      rw [ih (n / 10) (Nat.div_lt_self (by omega) (by omega)) acc]
      rw [digitChar_toNat (Nat.mod_lt _ (by omega))]
      have hpow : 10 ^ ((natToDigits (n / 10)).length + 1) =
          10 ^ (natToDigits (n / 10)).length * 10 := by ring
      rw [hpow]
      generalize 10 ^ (natToDigits (n / 10)).length = P
      calc (acc * P + n / 10) * 10 + (48 + n % 10 - 48)
          = (acc * P + n / 10) * 10 + n % 10 := by omega
        _ = acc * (P * 10) + (n / 10 * 10 + n % 10) := by ring
        _ = acc * (P * 10) + n := by omega

theorem digitsToNat_natToDigits (n : Nat) : digitsToNat (natToDigits n) = n := by
  unfold digitsToNat
  rw [foldl_digits n 0]
  simp

theorem natToDigits_head_ne_zero {n : Nat} (hn : 0 < n) :
    ∀ c t, natToDigits n = c :: t → c ≠ '0' := by
  induction n using Nat.strong_induction_on with
  | _ n ih =>
    intro c t hct
    rw [natToDigits_unfold] at hct
    by_cases h : n < 10
    · rw [if_pos h] at hct
      injection hct with h1 _
      subst h1
      have : ∀ m, m < 10 → 0 < m → digitChar m ≠ '0' := by decide
      exact this n h hn
    · rw [if_neg h] at hct
      obtain ⟨c', t', hsplit⟩ : ∃ c' t', natToDigits (n / 10) = c' :: t' := by
        cases hh : natToDigits (n / 10) with
        | nil => exact absurd hh (natToDigits_ne_nil _)
        | cons a b => exact ⟨a, b, rfl⟩
      rw [hsplit] at hct
      simp only [List.cons_append] at hct
      injection hct with h1 _
      subst h1
      exact ih (n / 10) (Nat.div_lt_self (by omega) (by omega)) (by omega) c' t' hsplit

/-! ## Decimal inversion -/

theorem parseXmlDigits_natToDigits (n : Nat) : parseXmlDigits (natToDigits n) = some n := by
  unfold parseXmlDigits
  rw [if_pos]
  · rw [digitsToNat_natToDigits]
  · exact ⟨natToDigits_ne_nil n, List.all_eq_true.mpr (natToDigits_all_digit n)⟩

theorem parseXmlInt_intToDigits (n : Int) : parseXmlInt (intToDigits n) = some n := by
  unfold intToDigits
  by_cases h : n < 0
  · rw [if_pos h]
    have hstep : parseXmlInt ('-' :: natToDigits n.natAbs) =
        (parseXmlDigits (natToDigits n.natAbs)).map fun m : Nat => -(m : Int) := rfl
    rw [hstep, parseXmlDigits_natToDigits]
    simp only [Option.map_some']
    congr 1
    omega
  · rw [if_neg h]
    obtain ⟨c, t, hct⟩ : ∃ c t, natToDigits n.natAbs = c :: t := by
      cases hh : natToDigits n.natAbs with
      | nil => exact absurd hh (natToDigits_ne_nil _)
      | cons a b => exact ⟨a, b, rfl⟩
    have hcdig : c.isDigit = true := natToDigits_all_digit n.natAbs c (by rw [hct]; simp)
    have hcne : ¬(c = '-') := by
      intro hc
      subst hc
      exact absurd hcdig (by decide)
    rw [hct]
    have hstep : parseXmlInt (c :: t) =
        (parseXmlDigits (c :: t)).map fun m : Nat => (m : Int) := by
      show (if c = '-' then (parseXmlDigits t).map fun m : Nat => -(m : Int)
        else (parseXmlDigits (c :: t)).map fun m : Nat => (m : Int)) = _
      rw [if_neg hcne]
    rw [hstep, ← hct, parseXmlDigits_natToDigits]
    simp only [Option.map_some']
    congr 1
    omega

theorem intToDigits_all_not_lt (n : Int) : ∀ c ∈ intToDigits n, decide (c ≠ '<') = true := by
  intro c hc
  have : c.isDigit = true ∨ c = '-' := by
    unfold intToDigits at hc
    by_cases h : n < 0
    · rw [if_pos h] at hc
      rcases List.mem_cons.mp hc with h1 | h2
      · exact .inr h1
      · exact .inl (natToDigits_all_digit _ c h2)
    · rw [if_neg h] at hc
      exact .inl (natToDigits_all_digit _ c hc)
  rcases this with h1 | h2
  · simp only [decide_eq_true_eq]
    intro hlt
    subst hlt
    exact absurd h1 (by decide)
  · subst h2
    decide

/-! ## XML escaping inversion -/

theorem mem_all_not_lt {l : List Char} (hall : (l.all fun d => decide (d ≠ '<')) = true)
    {d : Char} (hd : d ∈ l) : decide (d ≠ '<') = true :=
  List.all_eq_true.mp hall d hd

theorem xmlEscapeChar_not_lt (c : Char) : ∀ d ∈ xmlEscapeChar c, decide (d ≠ '<') = true := by
  intro d hd
  unfold xmlEscapeChar at hd
  split_ifs at hd with h1 h2 h3 h4 h5 h6 h7 h8 h9
  · exact mem_all_not_lt (by decide) hd
  · exact mem_all_not_lt (by decide) hd
  · exact mem_all_not_lt (by decide) hd
  · exact mem_all_not_lt (by decide) hd
  · exact mem_all_not_lt (by decide) hd
  · exact mem_all_not_lt (by decide) hd
  · exact mem_all_not_lt (by decide) hd
  · exact mem_all_not_lt (by decide) hd
  · simp only [List.mem_singleton] at hd
    subst hd
    simp only [decide_eq_true_eq]
    intro hlt
    exact h4 hlt
  · simp only [List.mem_singleton] at hd
    subst hd
    decide

theorem xmlUnescape_escapeChar {c : Char} (hc : validXmlChar c = true) (rest : List Char) :
    xmlUnescape (xmlEscapeChar c ++ rest) = (xmlUnescape rest).map (c :: ·) := by
  unfold xmlEscapeChar
  split_ifs with h1 h2 h3 h4 h5 h6 h7 h8
  · subst h1; rfl
  · subst h2; rfl
  · subst h3; rfl
  · subst h4; rfl
  · subst h5; rfl
  · subst h6; rfl
  · subst h7; rfl
  · subst h8; rfl
  · have hamp : ¬(c = '&') := h3
    simp only [List.singleton_append]
    have hstep : xmlUnescape (c :: rest) =
        (if c = '&' then xmlEntityDecode rest else (xmlUnescape rest).map (c :: ·)) := rfl
    rw [hstep, if_neg hamp]

theorem xmlUnescape_escapeList {cs : List Char} (h : ∀ c ∈ cs, validXmlChar c = true) :
    ∀ rest, xmlUnescape (xmlEscapeList cs ++ rest) = (xmlUnescape rest).map (cs ++ ·) := by
  induction cs with
  | nil =>
    intro rest
    simp only [xmlEscapeList, List.flatMap_nil, List.nil_append]
    cases xmlUnescape rest <;> simp
  | cons c t ih =>
    intro rest
    have hc : validXmlChar c = true := h c (by simp)
    have ht := ih fun d hd => h d (by simp [hd])
    simp only [xmlEscapeList, List.flatMap_cons, List.append_assoc]
    rw [xmlUnescape_escapeChar hc]
    rw [show t.flatMap xmlEscapeChar = xmlEscapeList t from rfl, ht rest]
    cases xmlUnescape rest <;> simp

theorem xmlUnescape_escape {cs : List Char} (h : ∀ c ∈ cs, validXmlChar c = true) :
    xmlUnescape (xmlEscapeList cs) = some cs := by
  have := xmlUnescape_escapeList h []
  simpa [xmlUnescape] using this

theorem xmlEscapeList_not_lt (cs : List Char) :
    ∀ d ∈ xmlEscapeList cs, decide (d ≠ '<') = true := by
  intro d hd
  simp only [xmlEscapeList, List.mem_flatMap] at hd
  obtain ⟨c, _, hdc⟩ := hd
  exact xmlEscapeChar_not_lt c d hdc

theorem xmlContent_escape (cs w : List Char) :
    xmlContent (xmlEscapeList cs ++ '<' :: w) = (xmlEscapeList cs, '<' :: w) := by
  have h := takeWhile_all_append (p := fun c => decide (c ≠ '<'))
    (xmlEscapeList cs) '<' w (xmlEscapeList_not_lt cs) (by decide)
  unfold xmlContent
  rw [h.1, h.2]

theorem xmlContent_digits (n : Int) (w : List Char) :
    xmlContent (intToDigits n ++ '<' :: w) = (intToDigits n, '<' :: w) := by
  have h := takeWhile_all_append (p := fun c => decide (c ≠ '<'))
    (intToDigits n) '<' w (intToDigits_all_not_lt n) (by decide)
  unfold xmlContent
  rw [h.1, h.2]

theorem string_all_valid {s : String} (h : s.data.all validXmlChar = true) :
    ∀ c ∈ s.data, validXmlChar c = true :=
  List.all_eq_true.mp h

/-- Decoding inverts serialisation: `xmlDecode` recovers the record from
`xml.MarshalIndent` output whenever the record's strings consist of
XML-representable characters. -/
theorem xmlDecode_marshalRecord (p : jsonData) (h : xmlCleanRecord p = true) :
    xmlDecode (marshalRecord p) = some p := by
  have hsplit : (p.FirstName.data.all validXmlChar = true) ∧
      (p.LastName.data.all validXmlChar = true) ∧
      (p.City.data.all validXmlChar = true) ∧
      (p.State.data.all validXmlChar = true) := by
    unfold xmlCleanRecord at h
    simp only [Bool.and_eq_true] at h
    exact ⟨h.1.1.1, h.1.1.2, h.1.2, h.2⟩
  obtain ⟨hf, hl, hc, hs⟩ := hsplit
  have hdata : (marshalRecord p).data = marshalChars p := rfl
  unfold xmlDecode
  rw [hdata]
  unfold marshalChars
  rw [dropLit_append]
  simp only []
  rw [show xmlFrag2 ++ (xmlEscapeList p.FirstName.data ++
      (xmlFrag3 ++ (xmlEscapeList p.LastName.data ++ (xmlFrag4 ++
        (xmlEscapeList p.City.data ++ (xmlFrag5 ++
          (xmlEscapeList p.State.data ++ xmlFrag6))))))) =
      '<' :: ("/Id>\n  <name>\n   <first>".data ++ (xmlEscapeList p.FirstName.data ++
      (xmlFrag3 ++ (xmlEscapeList p.LastName.data ++ (xmlFrag4 ++
        (xmlEscapeList p.City.data ++ (xmlFrag5 ++
          (xmlEscapeList p.State.data ++ xmlFrag6)))))))) from rfl]
  rw [xmlContent_digits]
  simp only []
  rw [parseXmlInt_intToDigits]
  simp only []
  rw [show ('<' : Char) :: ("/Id>\n  <name>\n   <first>".data ++ (xmlEscapeList p.FirstName.data ++
      (xmlFrag3 ++ (xmlEscapeList p.LastName.data ++ (xmlFrag4 ++
        (xmlEscapeList p.City.data ++ (xmlFrag5 ++
          (xmlEscapeList p.State.data ++ xmlFrag6)))))))) =
      xmlFrag2 ++ (xmlEscapeList p.FirstName.data ++
      (xmlFrag3 ++ (xmlEscapeList p.LastName.data ++ (xmlFrag4 ++
        (xmlEscapeList p.City.data ++ (xmlFrag5 ++
          (xmlEscapeList p.State.data ++ xmlFrag6))))))) from rfl]
  rw [dropLit_append]
  simp only []
  rw [show xmlFrag3 ++ (xmlEscapeList p.LastName.data ++ (xmlFrag4 ++
        (xmlEscapeList p.City.data ++ (xmlFrag5 ++
          (xmlEscapeList p.State.data ++ xmlFrag6))))) =
      '<' :: ("/first>\n   <last>".data ++ (xmlEscapeList p.LastName.data ++ (xmlFrag4 ++
        (xmlEscapeList p.City.data ++ (xmlFrag5 ++
          (xmlEscapeList p.State.data ++ xmlFrag6)))))) from rfl]
  rw [xmlContent_escape]
  simp only []
  rw [xmlUnescape_escape (string_all_valid hf)]
  simp only []
  rw [show ('<' : Char) :: ("/first>\n   <last>".data ++ (xmlEscapeList p.LastName.data ++
      (xmlFrag4 ++ (xmlEscapeList p.City.data ++ (xmlFrag5 ++
          (xmlEscapeList p.State.data ++ xmlFrag6)))))) =
      xmlFrag3 ++ (xmlEscapeList p.LastName.data ++ (xmlFrag4 ++
        (xmlEscapeList p.City.data ++ (xmlFrag5 ++
          (xmlEscapeList p.State.data ++ xmlFrag6))))) from rfl]
  rw [dropLit_append]
  simp only []
  rw [show xmlFrag4 ++ (xmlEscapeList p.City.data ++ (xmlFrag5 ++
          (xmlEscapeList p.State.data ++ xmlFrag6))) =
      '<' :: ("/last>\n  </name>\n  <City>".data ++ (xmlEscapeList p.City.data ++ (xmlFrag5 ++
          (xmlEscapeList p.State.data ++ xmlFrag6)))) from rfl]
  rw [xmlContent_escape]
  simp only []
  rw [xmlUnescape_escape (string_all_valid hl)]
  simp only []
  rw [show ('<' : Char) :: ("/last>\n  </name>\n  <City>".data ++
      (xmlEscapeList p.City.data ++ (xmlFrag5 ++
          (xmlEscapeList p.State.data ++ xmlFrag6)))) =
      xmlFrag4 ++ (xmlEscapeList p.City.data ++ (xmlFrag5 ++
          (xmlEscapeList p.State.data ++ xmlFrag6))) from rfl]
  rw [dropLit_append]
  simp only []
  rw [show xmlFrag5 ++ (xmlEscapeList p.State.data ++ xmlFrag6) =
      '<' :: ("/City>\n  <State>".data ++ (xmlEscapeList p.State.data ++ xmlFrag6)) from rfl]
  rw [xmlContent_escape]
  simp only []
  rw [xmlUnescape_escape (string_all_valid hc)]
  simp only []
  rw [show ('<' : Char) :: ("/City>\n  <State>".data ++
      (xmlEscapeList p.State.data ++ xmlFrag6)) =
      xmlFrag5 ++ (xmlEscapeList p.State.data ++ xmlFrag6) from rfl]
  rw [dropLit_append]
  simp only []
  rw [show xmlFrag6 = '<' :: "/State>\n </jsonData>".data from rfl]
  rw [xmlContent_escape]
  simp only []
  rw [xmlUnescape_escape (string_all_valid hs)]
  simp only []
  rw [show ('<' : Char) :: "/State>\n </jsonData>".data = xmlFrag6 from rfl]
  rw [dropLit_self]

/-! ## JSON string escaping inversion -/

theorem hexVal_jsonHexDig : ∀ m, m < 16 → hexVal (jsonHexDig m) = some m := by decide

theorem hex4_jsonHexDig {v : Nat} (h : v < 32) :
    hex4 '0' '0' (jsonHexDig (v / 16)) (jsonHexDig (v % 16)) = some v := by
  have hd1 : hexVal (jsonHexDig (v / 16)) = some (v / 16) := hexVal_jsonHexDig _ (by omega)
  have hd2 : hexVal (jsonHexDig (v % 16)) = some (v % 16) := hexVal_jsonHexDig _ (by omega)
  unfold hex4
  rw [show hexVal '0' = some 0 from rfl, hd1, hd2]
  simp only []
  congr 1
  omega

theorem jsonEscapeChar_control {c : Char} (h1 : ¬c = '"') (h2 : ¬c = '\\') (h3 : ¬c = '<')
    (h4 : ¬c = '>') (h5 : ¬c = '&') (h6 : ¬c = '\n') (h7 : ¬c = '\r') (h8 : ¬c = '\t')
    (h9 : c.toNat < 0x20) :
    jsonEscapeChar c =
      ['\\', 'u', '0', '0', jsonHexDig (c.toNat / 16), jsonHexDig (c.toNat % 16)] := by
  unfold jsonEscapeChar
  rw [if_neg h1, if_neg h2, if_neg h3, if_neg h4, if_neg h5, if_neg h6, if_neg h7,
    if_neg h8, if_pos h9]

theorem jsonEscapeChar_plain {c : Char} (h1 : ¬c = '"') (h2 : ¬c = '\\') (h3 : ¬c = '<')
    (h4 : ¬c = '>') (h5 : ¬c = '&') (h6 : ¬c = '\n') (h7 : ¬c = '\r') (h8 : ¬c = '\t')
    (h9 : ¬c.toNat < 0x20) (h10 : ¬c.toNat = 0x2028) (h11 : ¬c.toNat = 0x2029) :
    jsonEscapeChar c = [c] := by
  unfold jsonEscapeChar
  rw [if_neg h1, if_neg h2, if_neg h3, if_neg h4, if_neg h5, if_neg h6, if_neg h7,
    if_neg h8, if_neg h9, if_neg h10, if_neg h11]

theorem jsonEscapeChar_u28 {c : Char} (h1 : ¬c = '"') (h2 : ¬c = '\\') (h3 : ¬c = '<')
    (h4 : ¬c = '>') (h5 : ¬c = '&') (h6 : ¬c = '\n') (h7 : ¬c = '\r') (h8 : ¬c = '\t')
    (h9 : ¬c.toNat < 0x20) (h10 : c.toNat = 0x2028) :
    jsonEscapeChar c = ['\\', 'u', '2', '0', '2', '8'] := by
  unfold jsonEscapeChar
  rw [if_neg h1, if_neg h2, if_neg h3, if_neg h4, if_neg h5, if_neg h6, if_neg h7,
    if_neg h8, if_neg h9, if_pos h10]

theorem jsonEscapeChar_u29 {c : Char} (h1 : ¬c = '"') (h2 : ¬c = '\\') (h3 : ¬c = '<')
    (h4 : ¬c = '>') (h5 : ¬c = '&') (h6 : ¬c = '\n') (h7 : ¬c = '\r') (h8 : ¬c = '\t')
    (h9 : ¬c.toNat < 0x20) (h10 : ¬c.toNat = 0x2028) (h11 : c.toNat = 0x2029) :
    jsonEscapeChar c = ['\\', 'u', '2', '0', '2', '9'] := by
  unfold jsonEscapeChar
  rw [if_neg h1, if_neg h2, if_neg h3, if_neg h4, if_neg h5, if_neg h6, if_neg h7,
    if_neg h8, if_neg h9, if_neg h10, if_pos h11]

theorem parseStringBody_escChar (c : Char) (w : List Char) :
    parseStringBody (jsonEscapeChar c ++ w) =
      (parseStringBody w).map fun p => (c :: p.1, p.2) := by
  by_cases h1 : c = '"'
  · subst h1; rfl
  by_cases h2 : c = '\\'
  · subst h2; rfl
  by_cases h3 : c = '<'
  · subst h3; rfl
  by_cases h4 : c = '>'
  · subst h4; rfl
  by_cases h5 : c = '&'
  · subst h5; rfl
  by_cases h6 : c = '\n'
  · subst h6; rfl
  by_cases h7 : c = '\r'
  · subst h7; rfl
  by_cases h8 : c = '\t'
  · subst h8; rfl
  by_cases h9 : c.toNat < 0x20
  · rw [jsonEscapeChar_control h1 h2 h3 h4 h5 h6 h7 h8 h9]
    simp only [List.cons_append, List.nil_append]
    rw [show parseStringBody ('\\' :: 'u' :: '0' :: '0' :: jsonHexDig (c.toNat / 16) ::
        jsonHexDig (c.toNat % 16) :: w) =
      (match hex4 '0' '0' (jsonHexDig (c.toNat / 16)) (jsonHexDig (c.toNat % 16)) with
        | none => none
        | some n =>
          if 0xD800 ≤ n ∧ n < 0xE000 then
            (parseStringBody w).map fun p => (repChar :: p.1, p.2)
          else
            (parseStringBody w).map fun p => (Char.ofNat n :: p.1, p.2)) from rfl]
    rw [hex4_jsonHexDig h9]
    simp only []
    rw [if_neg (by omega), Char.ofNat_toNat]
  by_cases h10 : c.toNat = 0x2028
  · rw [jsonEscapeChar_u28 h1 h2 h3 h4 h5 h6 h7 h8 h9 h10]
    simp only [List.cons_append, List.nil_append]
    rw [show parseStringBody ('\\' :: 'u' :: '2' :: '0' :: '2' :: '8' :: w) =
      (parseStringBody w).map fun p => (Char.ofNat 0x2028 :: p.1, p.2) from rfl]
    rw [show (0x2028 : Nat) = c.toNat from h10.symm, Char.ofNat_toNat]
  by_cases h11 : c.toNat = 0x2029
  · rw [jsonEscapeChar_u29 h1 h2 h3 h4 h5 h6 h7 h8 h9 h10 h11]
    simp only [List.cons_append, List.nil_append]
    rw [show parseStringBody ('\\' :: 'u' :: '2' :: '0' :: '2' :: '9' :: w) =
      (parseStringBody w).map fun p => (Char.ofNat 0x2029 :: p.1, p.2) from rfl]
    rw [show (0x2029 : Nat) = c.toNat from h11.symm, Char.ofNat_toNat]
  · rw [jsonEscapeChar_plain h1 h2 h3 h4 h5 h6 h7 h8 h9 h10 h11]
    simp only [List.cons_append, List.nil_append]
    rw [show parseStringBody (c :: w) =
      (if c = '"' then some ([], w)
        else if c = '\\' then parseEscapeSeq w
        else if c.toNat < 0x20 then none
        else (parseStringBody w).map fun p => (c :: p.1, p.2)) from rfl]
    rw [if_neg h1, if_neg h2, if_neg h9]

theorem parseStringBody_escList (cs : List Char) (rest : List Char) :
    parseStringBody (jsonEscapeList cs ++ '"' :: rest) = some (cs, rest) := by
  induction cs with
  | nil => rfl
  | cons c t ih =>
    simp only [jsonEscapeList, List.flatMap_cons, List.append_assoc] at *
    rw [parseStringBody_escChar, ih]
    rfl

/-! ## JSON number inversion -/

theorem isDigit_ne {c : Char} (h : c.isDigit = true) (d : Char) (hd : d.isDigit = false) :
    ¬c = d := by
  intro he
  subst he
  rw [h] at hd
  cases hd

theorem not_ws_of_digit {c : Char} (h : c.isDigit = true) : isJsonWs c = false := by
  unfold isJsonWs
  rw [decide_eq_false (isDigit_ne h ' ' (by decide)),
    decide_eq_false (isDigit_ne h '\t' (by decide)),
    decide_eq_false (isDigit_ne h '\n' (by decide)),
    decide_eq_false (isDigit_ne h '\r' (by decide))]
  rfl

theorem takeWhile_digits (m : Nat) {x : Char} (hx : x.isDigit = false) (r : List Char) :
    (natToDigits m ++ x :: r).takeWhile Char.isDigit = natToDigits m ∧
      (natToDigits m ++ x :: r).dropWhile Char.isDigit = x :: r :=
  takeWhile_all_append _ _ _ (natToDigits_all_digit m) hx

theorem natToDigits_no_leading_zero (m : Nat) :
    ¬(1 < (natToDigits m).length ∧ (natToDigits m).head? = some '0') := by
  rintro ⟨hlen, hhead⟩
  obtain ⟨c, t, hct⟩ : ∃ c t, natToDigits m = c :: t := by
    cases hh : natToDigits m with
    | nil => exact absurd hh (natToDigits_ne_nil _)
    | cons a b => exact ⟨a, b, rfl⟩
  rw [hct] at hlen hhead
  simp only [List.head?_cons, Option.some_inj] at hhead
  subst hhead
  by_cases hm : m = 0
  · subst hm
    have h0 : natToDigits 0 = ['0'] := by rw [natToDigits_unfold]; rfl
    rw [h0] at hct
    injection hct with _ h2
    rw [← h2] at hlen
    simp at hlen
  · exact natToDigits_head_ne_zero (Nat.pos_of_ne_zero hm) _ _ hct rfl

theorem parseNumAfterSign_digits (neg : Bool) (m : Nat) (r : List Char) :
    parseNumAfterSign neg (natToDigits m ++ ',' :: r) =
      some (.num (some (if neg then -(m : Int) else (m : Int))), ',' :: r) := by
  have h := takeWhile_digits m (x := ',') (by decide) r
  simp only [parseNumAfterSign, h.1, h.2]
  rw [if_neg (natToDigits_ne_nil m), if_neg (natToDigits_no_leading_zero m)]
  rw [show parseFracOpt (',' :: r) = some (false, ',' :: r) from rfl]
  simp only []
  rw [show parseExpOpt (',' :: r) = some (false, ',' :: r) from rfl]
  simp only []
  rw [if_neg (by simp : ¬(false = true ∨ false = true))]
  rw [digitsToNat_natToDigits]

theorem parseNumAfterSign_digits_neg (m : Nat) (r : List Char) :
    parseNumAfterSign true (natToDigits m ++ ',' :: r) =
      some (.num (some (-(m : Int))), ',' :: r) := by
  rw [parseNumAfterSign_digits]
  rfl

theorem parseNumAfterSign_digits_pos (m : Nat) (r : List Char) :
    parseNumAfterSign false (natToDigits m ++ ',' :: r) =
      some (.num (some ((m : Int))), ',' :: r) := by
  rw [parseNumAfterSign_digits]
  rfl

theorem parseNumber_intToDigits (n : Int) (r : List Char) :
    parseNumber (intToDigits n ++ ',' :: r) = some (.num (some n), ',' :: r) := by
  unfold intToDigits
  by_cases h : n < 0
  · rw [if_pos h, List.cons_append]
    rw [show parseNumber ('-' :: (natToDigits n.natAbs ++ ',' :: r)) =
      parseNumAfterSign true (natToDigits n.natAbs ++ ',' :: r) from rfl]
    rw [parseNumAfterSign_digits_neg]
    rw [show -((n.natAbs : Nat) : Int) = n by omega]
  · rw [if_neg h]
    obtain ⟨c, t, hct⟩ : ∃ c t, natToDigits n.natAbs = c :: t := by
      cases hh : natToDigits n.natAbs with
      | nil => exact absurd hh (natToDigits_ne_nil _)
      | cons a b => exact ⟨a, b, rfl⟩
    have hcdig : c.isDigit = true := natToDigits_all_digit n.natAbs c (by rw [hct]; simp)
    rw [hct, List.cons_append]
    rw [show parseNumber (c :: (t ++ ',' :: r)) =
      (if c = '-' then parseNumAfterSign true (t ++ ',' :: r)
        else parseNumAfterSign false (c :: (t ++ ',' :: r))) from rfl]
    rw [if_neg (isDigit_ne hcdig '-' (by decide)), ← List.cons_append, ← hct]
    rw [parseNumAfterSign_digits_pos]
    rw [show ((n.natAbs : Nat) : Int) = n by omega]

/-! ## Parsing the encoded record -/

theorem skipWs_cons {c : Char} (h : isJsonWs c = false) (r : List Char) :
    skipWs (c :: r) = c :: r := by
  unfold skipWs
  rw [h]
  rfl

theorem parseValue_dispatch_num (fuel : Nat) {c : Char} (rest : List Char)
    (hws : isJsonWs c = false) (h1 : ¬c = '{') (h2 : ¬c = '[') (h3 : ¬c = '"')
    (h4 : ¬c = 'n') (h5 : ¬c = 't') (h6 : ¬c = 'f') :
    parseValue (fuel + 1) (c :: rest) = parseNumber (c :: rest) := by
  rw [parseValue, skipWs_cons hws]
  simp only []
  rw [if_neg h1, if_neg h2, if_neg h3, if_neg h4, if_neg h5, if_neg h6]

theorem parseValue_num (fuel : Nat) (n : Int) (r : List Char) :
    parseValue (fuel + 1) (intToDigits n ++ ',' :: r) = some (.num (some n), ',' :: r) := by
  obtain ⟨c, t, hct, hc⟩ : ∃ c t, intToDigits n = c :: t ∧ (c.isDigit = true ∨ c = '-') := by
    unfold intToDigits
    by_cases h : n < 0
    · rw [if_pos h]
      exact ⟨'-', natToDigits n.natAbs, rfl, .inr rfl⟩
    · rw [if_neg h]
      cases hh : natToDigits n.natAbs with
      | nil => exact absurd hh (natToDigits_ne_nil _)
      | cons a b =>
        exact ⟨a, b, rfl, .inl (natToDigits_all_digit n.natAbs a (by rw [hh]; simp))⟩
  have hws : isJsonWs c = false := by
    rcases hc with h | h
    · exact not_ws_of_digit h
    · subst h; decide
  have hspec : ¬c = '{' ∧ ¬c = '[' ∧ ¬c = '"' ∧ ¬c = 'n' ∧ ¬c = 't' ∧ ¬c = 'f' := by
    rcases hc with h | h
    · exact ⟨isDigit_ne h '{' (by decide), isDigit_ne h '[' (by decide),
        isDigit_ne h '"' (by decide), isDigit_ne h 'n' (by decide),
        isDigit_ne h 't' (by decide), isDigit_ne h 'f' (by decide)⟩
    · subst h
      refine ⟨by decide, by decide, by decide, by decide, by decide, by decide⟩
  rw [hct, List.cons_append,
    parseValue_dispatch_num fuel _ hws hspec.1 hspec.2.1 hspec.2.2.1 hspec.2.2.2.1
      hspec.2.2.2.2.1 hspec.2.2.2.2.2,
    ← List.cons_append, ← hct, parseNumber_intToDigits]

theorem parseValue_str (fuel : Nat) (s : String) (w : List Char) :
    parseValue (fuel + 1) ('"' :: (jsonEscapeList s.data ++ '"' :: w)) =
      some (.str s, w) := by
  rw [show parseValue (fuel + 1) ('"' :: (jsonEscapeList s.data ++ '"' :: w)) =
    (parseStringBody (jsonEscapeList s.data ++ '"' :: w)).map
      (fun p => (Json.str (String.mk p.1), p.2)) from rfl]
  rw [parseStringBody_escList]
  rfl

theorem pm_Id (fuel : Nat) (n : Int) (w : List Char) :
    parseMembers (fuel + 2) ('"' :: 'I' :: 'd' :: '"' :: ':' ::
        (intToDigits n ++ ',' :: '"' :: w)) =
      (parseMembers (fuel + 1) ('"' :: w)).map fun q =>
        (("Id", Json.num (some n)) :: q.1, q.2) := by
  rw [parseMembers]
  rw [show parseStringBody ('I' :: 'd' :: '"' :: ':' :: (intToDigits n ++ ',' :: '"' :: w)) =
    some (['I', 'd'], ':' :: (intToDigits n ++ ',' :: '"' :: w)) from rfl]
  simp only []
  rw [skipWs_cons (by decide)]
  simp only []
  rw [parseValue_num fuel n ('"' :: w)]
  simp only []
  rw [skipWs_cons (by decide)]
  simp only []
  rw [skipWs_cons (by decide)]
  cases hq : parseMembers (fuel + 1) ('"' :: w) with
  | none => rfl
  | some q => cases q; rfl

theorem pm_first (fuel : Nat) (s : String) (w : List Char) :
    parseMembers (fuel + 2) ('"' :: 'f' :: 'i' :: 'r' :: 's' :: 't' :: '_' :: 'n' :: 'a' ::
        'm' :: 'e' :: '"' :: ':' :: '"' :: (jsonEscapeList s.data ++ '"' :: ',' :: '"' :: w)) =
      (parseMembers (fuel + 1) ('"' :: w)).map fun q =>
        (("first_name", Json.str s) :: q.1, q.2) := by
  rw [parseMembers]
  rw [show parseStringBody ('f' :: 'i' :: 'r' :: 's' :: 't' :: '_' :: 'n' :: 'a' :: 'm' ::
      'e' :: '"' :: ':' :: '"' :: (jsonEscapeList s.data ++ '"' :: ',' :: '"' :: w)) =
    some (['f', 'i', 'r', 's', 't', '_', 'n', 'a', 'm', 'e'],
      ':' :: '"' :: (jsonEscapeList s.data ++ '"' :: ',' :: '"' :: w)) from rfl]
  simp only []
  rw [skipWs_cons (by decide)]
  simp only []
  rw [parseValue_str fuel s (',' :: '"' :: w)]
  simp only []
  rw [skipWs_cons (by decide)]
  simp only []
  rw [skipWs_cons (by decide)]
  cases hq : parseMembers (fuel + 1) ('"' :: w) with
  | none => rfl
  | some q => cases q; rfl

theorem pm_last (fuel : Nat) (s : String) (w : List Char) :
    parseMembers (fuel + 2) ('"' :: 'l' :: 'a' :: 's' :: 't' :: '_' :: 'n' :: 'a' ::
        'm' :: 'e' :: '"' :: ':' :: '"' :: (jsonEscapeList s.data ++ '"' :: ',' :: '"' :: w)) =
      (parseMembers (fuel + 1) ('"' :: w)).map fun q =>
        (("last_name", Json.str s) :: q.1, q.2) := by
  rw [parseMembers]
  rw [show parseStringBody ('l' :: 'a' :: 's' :: 't' :: '_' :: 'n' :: 'a' :: 'm' ::
      'e' :: '"' :: ':' :: '"' :: (jsonEscapeList s.data ++ '"' :: ',' :: '"' :: w)) =
    some (['l', 'a', 's', 't', '_', 'n', 'a', 'm', 'e'],
      ':' :: '"' :: (jsonEscapeList s.data ++ '"' :: ',' :: '"' :: w)) from rfl]
  simp only []
  rw [skipWs_cons (by decide)]
  simp only []
  rw [parseValue_str fuel s (',' :: '"' :: w)]
  simp only []
  rw [skipWs_cons (by decide)]
  simp only []
  rw [skipWs_cons (by decide)]
  cases hq : parseMembers (fuel + 1) ('"' :: w) with
  | none => rfl
  | some q => cases q; rfl

theorem pm_City (fuel : Nat) (s : String) (w : List Char) :
    parseMembers (fuel + 2) ('"' :: 'C' :: 'i' :: 't' :: 'y' :: '"' :: ':' :: '"' ::
        (jsonEscapeList s.data ++ '"' :: ',' :: '"' :: w)) =
      (parseMembers (fuel + 1) ('"' :: w)).map fun q =>
        (("City", Json.str s) :: q.1, q.2) := by
  rw [parseMembers]
  rw [show parseStringBody ('C' :: 'i' :: 't' :: 'y' :: '"' :: ':' :: '"' ::
      (jsonEscapeList s.data ++ '"' :: ',' :: '"' :: w)) =
    some (['C', 'i', 't', 'y'],
      ':' :: '"' :: (jsonEscapeList s.data ++ '"' :: ',' :: '"' :: w)) from rfl]
  simp only []
  rw [skipWs_cons (by decide)]
  simp only []
  rw [parseValue_str fuel s (',' :: '"' :: w)]
  simp only []
  rw [skipWs_cons (by decide)]
  simp only []
  rw [skipWs_cons (by decide)]
  cases hq : parseMembers (fuel + 1) ('"' :: w) with
  | none => rfl
  | some q => cases q; rfl

theorem pm_State (fuel : Nat) (s : String) :
    parseMembers (fuel + 2) ('"' :: 'S' :: 't' :: 'a' :: 't' :: 'e' :: '"' :: ':' :: '"' ::
        (jsonEscapeList s.data ++ '"' :: '}' :: [])) =
      some ([("State", Json.str s)], []) := by
  rw [parseMembers]
  rw [show parseStringBody ('S' :: 't' :: 'a' :: 't' :: 'e' :: '"' :: ':' :: '"' ::
      (jsonEscapeList s.data ++ '"' :: '}' :: [])) =
    some (['S', 't', 'a', 't', 'e'],
      ':' :: '"' :: (jsonEscapeList s.data ++ '"' :: '}' :: [])) from rfl]
  simp only []
  rw [skipWs_cons (by decide)]
  simp only []
  rw [parseValue_str fuel s ('}' :: [])]
  simp only []
  rw [skipWs_cons (by decide)]
  rfl

theorem parseMembers_encode (fuel : Nat) (p : jsonData) :
    parseMembers (fuel + 10) ('"' :: 'I' :: 'd' :: '"' :: ':' ::
      (intToDigits p.Id ++ (jFrag2 ++ (jsonEscapeList p.FirstName.data ++
        (jFrag3 ++ (jsonEscapeList p.LastName.data ++ (jFrag4 ++
          (jsonEscapeList p.City.data ++ (jFrag5 ++
            (jsonEscapeList p.State.data ++ jFrag6)))))))))) =
      some ([("Id", Json.num (some p.Id)), ("first_name", Json.str p.FirstName),
        ("last_name", Json.str p.LastName), ("City", Json.str p.City),
        ("State", Json.str p.State)], []) := by
  rw [show ∀ Z : List Char, jFrag2 ++ Z = ',' :: '"' :: 'f' :: 'i' :: 'r' :: 's' :: 't' ::
    '_' :: 'n' :: 'a' :: 'm' :: 'e' :: '"' :: ':' :: '"' :: Z from fun _ => rfl]
  rw [show ∀ Z : List Char, jFrag3 ++ Z = '"' :: ',' :: '"' :: 'l' :: 'a' :: 's' :: 't' ::
    '_' :: 'n' :: 'a' :: 'm' :: 'e' :: '"' :: ':' :: '"' :: Z from fun _ => rfl]
  rw [show ∀ Z : List Char, jFrag4 ++ Z = '"' :: ',' :: '"' :: 'C' :: 'i' :: 't' :: 'y' ::
    '"' :: ':' :: '"' :: Z from fun _ => rfl]
  rw [show ∀ Z : List Char, jFrag5 ++ Z = '"' :: ',' :: '"' :: 'S' :: 't' :: 'a' :: 't' ::
    'e' :: '"' :: ':' :: '"' :: Z from fun _ => rfl]
  rw [show jFrag6 = '"' :: '}' :: [] from rfl]
  rw [show fuel + 10 = fuel + 8 + 2 from by omega]
  rw [pm_Id]
  rw [show fuel + 8 + 1 = fuel + 7 + 2 from by omega]
  rw [pm_first]
  rw [show fuel + 7 + 1 = fuel + 6 + 2 from by omega]
  rw [pm_last]
  rw [show fuel + 6 + 1 = fuel + 5 + 2 from by omega]
  rw [pm_City]
  rw [show fuel + 5 + 1 = fuel + 4 + 2 from by omega]
  rw [pm_State]
  rfl

theorem parseValue_encode (fuel : Nat) (p : jsonData) :
    parseValue (fuel + 11) (jsonEncodeChars p) = some (recordJson p, []) := by
  unfold jsonEncodeChars
  rw [show ∀ Z : List Char, jFrag1 ++ Z = '{' :: '"' :: 'I' :: 'd' :: '"' :: ':' :: Z
    from fun _ => rfl]
  rw [show ∀ Z : List Char, parseValue (fuel + 11) ('{' :: '"' :: 'I' :: 'd' :: '"' :: ':' :: Z) =
    (parseMembers (fuel + 10) ('"' :: 'I' :: 'd' :: '"' :: ':' :: Z)).map
      (fun pr => (Json.obj pr.1, pr.2)) from fun _ => rfl]
  rw [parseMembers_encode]
  rfl

theorem parseJson_encode (p : jsonData) : parseJson (jsonEncode p) = some (recordJson p) := by
  unfold parseJson
  rw [show (jsonEncode p).data = jsonEncodeChars p from rfl]
  have hlen : 10 ≤ (jsonEncodeChars p).length := by
    unfold jsonEncodeChars
    simp only [List.length_append]
    rw [show jFrag1.length = 6 from rfl, show jFrag2.length = 15 from rfl]
    omega
  rw [show (jsonEncodeChars p).length + 1 = ((jsonEncodeChars p).length - 10) + 11
    from by omega]
  rw [parseValue_encode]
  simp only []
  rw [show skipWs [] = ([] : List Char) from rfl]
  rw [if_pos rfl]

theorem unmarshalRecord_recordJson (p : jsonData) : unmarshalRecord (recordJson p) = .ok p := by
  cases p
  rfl

theorem goUnmarshal_jsonEncode (p : jsonData) : goUnmarshal (jsonEncode p) = .ok p := by
  unfold goUnmarshal
  rw [parseJson_encode]
  simp only []
  exact unmarshalRecord_recordJson p

/-! ## The serialised document, spelled as one string -/

theorem marshalRecord_eq (p : jsonData) :
    marshalRecord p = " <jsonData>\n  <Id>" ++ intRepr p.Id ++
      "</Id>\n  <name>\n   <first>" ++ xmlEscape p.FirstName ++ "</first>\n   <last>" ++
      xmlEscape p.LastName ++ "</last>\n  </name>\n  <City>" ++ xmlEscape p.City ++
      "</City>\n  <State>" ++ xmlEscape p.State ++ "</State>\n </jsonData>" := by
  apply String.ext
  show marshalChars p = _
  simp only [String.data_append]
  rw [show (intRepr p.Id).data = intToDigits p.Id from rfl]
  rw [show (xmlEscape p.FirstName).data = xmlEscapeList p.FirstName.data from rfl]
  rw [show (xmlEscape p.LastName).data = xmlEscapeList p.LastName.data from rfl]
  rw [show (xmlEscape p.City).data = xmlEscapeList p.City.data from rfl]
  rw [show (xmlEscape p.State).data = xmlEscapeList p.State.data from rfl]
  simp [marshalChars, xmlFrag1, xmlFrag2, xmlFrag3, xmlFrag4, xmlFrag5, xmlFrag6,
    List.append_assoc]

/-! ## Claim theorems -/

/-- C1 (amended): for every JSON input whose parse yields a non-empty record,
`jsonToXml` writes bit-exact XML whose root element is named `jsonData` (the
record type's name), with the root line `" <jsonData>"`, the scalar field
lines `"  <Field>value</Field>"` (Id first, then the nested name block, then
City, then State), the nested block
`"  <name>\n   <first>x</first>\n   <last>y</last>\n  </name>"`, and the
closing `" </jsonData>"`. -/
theorem convert_output_format (data : String) (p : jsonData)
    (hp : goUnmarshal data = .ok p) (hne : p.IsEmpty = false) :
    jsonToXml data = (none, [" <jsonData>\n  <Id>" ++ intRepr p.Id ++
      "</Id>\n  <name>\n   <first>" ++ xmlEscape p.FirstName ++ "</first>\n   <last>" ++
      xmlEscape p.LastName ++ "</last>\n  </name>\n  <City>" ++ xmlEscape p.City ++
      "</City>\n  <State>" ++ xmlEscape p.State ++ "</State>\n </jsonData>"]) := by
  unfold jsonToXml
  rw [hp]
  simp only []
  rw [hne]
  simp only [Bool.false_eq_true, if_false]
  rw [marshalRecord_eq]

/-- C1 witness: the spec's scenario input, with the hypotheses discharged at
the concrete record. -/
theorem convert_output_format_witness :
    jsonToXml "\x7b\"first_name\": \"firstname\", \"last_name\":\"lastname\"\x7d" =
      (none, [" <jsonData>\n  <Id>" ++ intRepr (0 : Int) ++
        "</Id>\n  <name>\n   <first>" ++ xmlEscape "firstname" ++ "</first>\n   <last>" ++
        xmlEscape "lastname" ++ "</last>\n  </name>\n  <City>" ++ xmlEscape "" ++
        "</City>\n  <State>" ++ xmlEscape "" ++ "</State>\n </jsonData>"]) :=
  convert_output_format _ ⟨0, "firstname", "lastname", "", ""⟩ (by decide) (by decide)

/-- C1 counterexample: on the spec's scenario input the converter emits the
`<jsonData>` document, which is not the `<record>` document the claim
demands. -/
theorem convert_root_not_record :
    jsonToXml "\x7b\"first_name\": \"firstname\", \"last_name\":\"lastname\"\x7d" =
      (none, [" <jsonData>\n  <Id>0</Id>\n  <name>\n   <first>firstname</first>\n   <last>lastname</last>\n  </name>\n  <City></City>\n  <State></State>\n </jsonData>"]) ∧
    (" <jsonData>\n  <Id>0</Id>\n  <name>\n   <first>firstname</first>\n   <last>lastname</last>\n  </name>\n  <City></City>\n  <State></State>\n </jsonData>" : String) ≠
      " <record>\n  <Id>0</Id>\n  <name>\n   <first>firstname</first>\n   <last>lastname</last>\n  </name>\n  <City></City>\n  <State></State>\n </record>" :=
  ⟨by decide, by decide⟩

/-- C2: for every valid (XML-representable) non-empty record, decoding the
XML produced by `jsonToXml` applied to the record's JSON encoding yields the
record again. -/
theorem convert_roundTrip (p : jsonData) (hclean : xmlCleanRecord p = true)
    (hne : p.IsEmpty = false) :
    jsonToXml (jsonEncode p) = (none, [marshalRecord p]) ∧
      xmlDecode (marshalRecord p) = some p := by
  constructor
  · unfold jsonToXml
    rw [goUnmarshal_jsonEncode]
    simp only []
    rw [hne]
    simp only [Bool.false_eq_true, if_false]
  · exact xmlDecode_marshalRecord p hclean

/-- C2 witness: the round trip evaluated at one concrete record. -/
theorem convert_roundTrip_witness :
    xmlCleanRecord ⟨10, "firstname", "lastname", "c", "s"⟩ = true ∧
      jsonData.IsEmpty ⟨10, "firstname", "lastname", "c", "s"⟩ = false ∧
      (jsonToXml (jsonEncode ⟨10, "firstname", "lastname", "c", "s"⟩) =
        (none, [marshalRecord ⟨10, "firstname", "lastname", "c", "s"⟩]) ∧
      xmlDecode (marshalRecord ⟨10, "firstname", "lastname", "c", "s"⟩) =
        some ⟨10, "firstname", "lastname", "c", "s"⟩) :=
  ⟨by decide, by decide, convert_roundTrip _ (by decide) (by decide)⟩

/-- C3: structurally valid JSON whose record decodes to the all-zero value
makes `jsonToXml` fail with the `ErrUnknownJSON` sentinel — a constructor
distinct from every wrapped (parse) error — and write nothing. -/
theorem convert_empty_schema (data : String) (p : jsonData)
    (hp : goUnmarshal data = .ok p) (he : p.IsEmpty = true) :
    jsonToXml data = (some .unknownJSON, []) ∧
      ∀ ctx e, GoError.unknownJSON ≠ GoError.wrap ctx e := by
  refine ⟨?_, fun ctx e h => GoError.noConfusion h⟩
  unfold jsonToXml
  rw [hp]
  simp only []
  rw [he]
  simp only [if_true]

/-- C3 witness: the spec's scenario `{"foo":"bar"}`. -/
theorem convert_empty_schema_witness :
    goUnmarshal "\x7b\"foo\":\"bar\"\x7d" = .ok jsonData.zero ∧
      (jsonToXml "\x7b\"foo\":\"bar\"\x7d" = (some .unknownJSON, []) ∧
        ∀ ctx e, GoError.unknownJSON ≠ GoError.wrap ctx e) :=
  ⟨by decide, convert_empty_schema _ jsonData.zero (by decide) (by decide)⟩

/-- C4 (amended): syntactically invalid JSON makes `jsonToXml` fail with the
underlying parse error wrapped with context `"json.Unmarshal"` (not
`"parse failed"`), an error that is never the `ErrUnknownJSON` sentinel, and
write nothing. -/
theorem convert_malformed (data : String) (hbad : parseJson data = none) :
    jsonToXml data = (some (.wrap "json.Unmarshal" .jsonSyntaxErr), []) ∧
      GoError.wrap "json.Unmarshal" GoError.jsonSyntaxErr ≠ GoError.unknownJSON := by
  refine ⟨?_, fun h => GoError.noConfusion h⟩
  unfold jsonToXml goUnmarshal
  rw [hbad]

/-- C4 witness: the spec's scenario `{"foo":"bar"` (missing brace). -/
theorem convert_malformed_witness :
    parseJson "\x7b\"foo\":\"bar\"" = none ∧
      (jsonToXml "\x7b\"foo\":\"bar\"" = (some (.wrap "json.Unmarshal" .jsonSyntaxErr), []) ∧
        GoError.wrap "json.Unmarshal" GoError.jsonSyntaxErr ≠ GoError.unknownJSON) :=
  ⟨rfl, convert_malformed _ rfl⟩

/-- C4 counterexample: on malformed input the error context is
`"json.Unmarshal"`, and no error wrapped with `"parse failed"` equals it. -/
theorem convert_malformed_counterexample :
    jsonToXml "\x7b\"foo\":\"bar\"" = (some (.wrap "json.Unmarshal" .jsonSyntaxErr), []) ∧
      ∀ e, GoError.wrap "json.Unmarshal" GoError.jsonSyntaxErr ≠
        GoError.wrap "parse failed" e := by
  refine ⟨by decide, ?_⟩
  intro e h
  injection h with h1 _
  exact absurd h1 (by decide)

/-- C5: a response whose Content-Type is not exactly `application/json`
makes `fetchAndProcess` fail with the content-type error carrying the
observed header value; the body is not read, the converter is not invoked,
and nothing is written. -/
theorem fetch_rejects_content_type (get : Getter) (url : String) (resp : MockResponse)
    (hget : get url = .ok resp) (hct : resp.contentType ≠ "application/json") :
    fetchAndProcess get url =
      ⟨some (.contentTypeErr resp.contentType), [], false, false⟩ := by
  unfold fetchAndProcess
  rw [hget]
  simp only []
  rw [if_pos hct]

/-- C5 witness: a stub returning `text/html`. -/
theorem fetch_rejects_content_type_witness :
    fetchAndProcess (fun _ => .ok ⟨"text/html", .ok "\x7b\x7d"⟩) "u" =
      ⟨some (.contentTypeErr "text/html"), [], false, false⟩ :=
  fetch_rejects_content_type _ "u" ⟨"text/html", .ok "\x7b\x7d"⟩ rfl (by decide)

/-- C6: a body-read failure on an `application/json` response makes
`fetchAndProcess` return no error and write nothing (the converter is not
invoked). -/
theorem fetch_body_read_failure (get : Getter) (url : String) (resp : MockResponse)
    (msg : String) (hget : get url = .ok resp)
    (hct : resp.contentType = "application/json") (hbody : resp.body = .error msg) :
    fetchAndProcess get url = ⟨none, [], true, false⟩ := by
  unfold fetchAndProcess
  rw [hget]
  simp only []
  rw [if_neg (fun h => h hct), hbody]

/-- C6 witness: a stub whose body read fails. -/
theorem fetch_body_read_failure_witness :
    fetchAndProcess (fun _ => .ok ⟨"application/json", .error "read error"⟩) "u" =
      ⟨none, [], true, false⟩ :=
  fetch_body_read_failure _ "u" ⟨"application/json", .error "read error"⟩ "read error"
    rfl rfl rfl

/-- C7: every per-URL task returns `nil` to the errgroup regardless of the
worker's outcome, so the dispatcher's wait step never surfaces a per-URL
error and the run covers every URL. -/
theorem dispatcher_isolates_errors (get : Getter) (output : String) (urls : List String) :
    (∀ u, workerTask get u = none) ∧ (runModel get output urls).1 = none ∧
      (runModel get output urls).2.length = urls.length := by
  have hw : ∀ u, workerTask get u = none := by
    intro u
    unfold workerTask
    cases (fetchAndProcess get u).err <;> rfl
  have hwait : ∀ l : List (Option GoError), (∀ x ∈ l, x = none) → egWait l = none := by
    intro l
    induction l with
    | nil => intro _; rfl
    | cons x t ih =>
      intro hall
      have hx : x = none := hall x (by simp)
      unfold egWait at ih ⊢
      simp only [List.foldl_cons]
      rw [hx]
      exact ih fun y hy => hall y (by simp [hy])
  refine ⟨hw, ?_, ?_⟩
  · unfold runModel
    simp only []
    exact hwait _ (by
      intro x hx
      simp only [List.mem_map] at hx
      obtain ⟨b, _, hbx⟩ := hx
      rw [← hbx]
      exact hw b.1)
  · unfold runModel runBindings
    simp [List.length_map, List.enum_length]

/-- C8: the sink sees either no `Write` call at all, or exactly one `Write`
call whose payload is the complete marshalled XML of the successfully
fetched, parsed, non-empty record. -/
theorem worker_single_write (get : Getter) (url : String) :
    (fetchAndProcess get url).writes = [] ∨
      ∃ s, (fetchAndProcess get url).writes = [s] ∧ (fetchAndProcess get url).err = none ∧
        ∃ resp body p, get url = .ok resp ∧ resp.body = .ok body ∧
          goUnmarshal body = .ok p ∧ p.IsEmpty = false ∧ s = marshalRecord p := by
  cases hget : get url with
  | error e =>
    left
    unfold fetchAndProcess
    rw [hget]
  | ok resp =>
    by_cases hct : resp.contentType ≠ "application/json"
    · left
      unfold fetchAndProcess
      rw [hget]
      simp only []
      rw [if_pos hct]
    · cases hbody : resp.body with
      | error e =>
        left
        unfold fetchAndProcess
        rw [hget]
        simp only []
        rw [if_neg hct, hbody]
      | ok body =>
        have hfp : fetchAndProcess get url =
            ⟨(jsonToXml body).1, (jsonToXml body).2, true, true⟩ := by
          unfold fetchAndProcess
          rw [hget]
          simp only []
          rw [if_neg hct, hbody]
        cases hum : goUnmarshal body with
        | error e =>
          left
          rw [hfp]
          show (jsonToXml body).2 = []
          unfold jsonToXml
          rw [hum]
        | ok p =>
          by_cases he : p.IsEmpty = true
          · left
            rw [hfp]
            show (jsonToXml body).2 = []
            unfold jsonToXml
            rw [hum]
            simp only []
            rw [he]
            simp only [if_true]
          · right
            have hne : p.IsEmpty = false := by
              revert he
              cases p.IsEmpty <;> simp
            have hxml : jsonToXml body = (none, [marshalRecord p]) := by
              unfold jsonToXml
              rw [hum]
              simp only []
              rw [hne]
              simp only [Bool.false_eq_true, if_false]
            refine ⟨marshalRecord p, ?_, ?_, resp, body, p, rfl, hbody, hum, hne, rfl⟩
            · rw [hfp]
              show (jsonToXml body).2 = _
              rw [hxml]
            · rw [hfp]
              show (jsonToXml body).1 = none
              rw [hxml]

/-- C9 helper: selecting every index of a list through `get?` reproduces the
mapped list. -/
theorem range_filterMap_get {α β : Type} (l : List α) (f : α → β) :
    (List.range l.length).filterMap (fun i => (l.get? i).map f) = l.map f := by
  induction l with
  | nil => rfl
  | cons a t ih =>
    rw [List.length_cons, List.range_succ_eq_map, List.filterMap_cons]
    simp only [List.get?_cons_zero, Option.map_some', List.filterMap_map]
    rw [show ((fun i => ((a :: t).get? i).map f) ∘ Nat.succ) =
      (fun i => (t.get? i).map f) from rfl]
    rw [ih, List.map_cons]

/-- C9: the URL at 0-based index `i` is bound to the output path
`<outputDir>/<i>.xml`, and the per-path outputs of a run are the same
multiset for every worker-completion order. -/
theorem url_index_binding (output : String) (urls : List String) (i : Nat)
    (h : i < urls.length) :
    (runBindings output urls).get? i =
      some (goTrimSpace (urls.get ⟨i, h⟩),
        output ++ "/" ++ String.mk (natToDigits i) ++ ".xml") ∧
      ∀ (get : Getter) (order : List Nat), order.Perm (List.range urls.length) →
        (filesInOrder get output urls order).Perm ((runModel get output urls).2) := by
  constructor
  · unfold runBindings pathFor
    rw [List.get?_map, List.get?_enum, List.get?_eq_get h]
    rfl
  · intro get order hperm
    have hlen : (runBindings output urls).length = urls.length := by
      unfold runBindings
      simp [List.enum_length]
    have hfix : filesInOrder get output urls (List.range urls.length) =
        (runModel get output urls).2 := by
      unfold filesInOrder runModel
      simp only []
      rw [← hlen, range_filterMap_get]
    exact (List.Perm.filterMap _ hperm).trans (hfix ▸ List.Perm.refl _)

/-- C9 witness: two URLs, index 1, with the reversed completion order. -/
theorem url_index_binding_witness :
    (runBindings "out" ["u1", "u2"]).get? 1 =
      some (goTrimSpace (["u1", "u2"].get ⟨1, by decide⟩),
        "out" ++ "/" ++ String.mk (natToDigits 1) ++ ".xml") ∧
      ∀ (get : Getter) (order : List Nat),
        order.Perm (List.range (["u1", "u2"] : List String).length) →
        (filesInOrder get "out" ["u1", "u2"] order).Perm
          ((runModel get "out" ["u1", "u2"]).2) :=
  url_index_binding "out" ["u1", "u2"] 1 (by decide)

/-- C10: JSON key matching is case-insensitive — lowercase `id`, `city`,
`state` populate the same fields as the exact-case spellings, and the
lowercase test input from the repository converts successfully. -/
theorem json_keys_case_insensitive :
    (∀ (n : Int) (f l c s : String),
      unmarshalRecord (.obj [("id", .num (some n)), ("first_name", .str f),
        ("last_name", .str l), ("city", .str c), ("state", .str s)]) = .ok ⟨n, f, l, c, s⟩ ∧
      unmarshalRecord (.obj [("Id", .num (some n)), ("first_name", .str f),
        ("last_name", .str l), ("City", .str c), ("State", .str s)]) = .ok ⟨n, f, l, c, s⟩) ∧
    jsonToXml "\x7b\"id\": 10, \"first_name\": \"firstname\", \"last_name\":\"lastname\"\x7d" =
      (none, [" <jsonData>\n  <Id>10</Id>\n  <name>\n   <first>firstname</first>\n   <last>lastname</last>\n  </name>\n  <City></City>\n  <State></State>\n </jsonData>"]) :=
  ⟨fun _ _ _ _ _ => ⟨rfl, rfl⟩, by decide⟩

end JsonToXml
